import Mathlib

/-!
Shallow embedding of the longhorn-manager v1.2.2 → v1.2.3 upgrade step
(`upgrade/v122to123/upgrade.go`) and of the CSI crypto device-status helpers
(`csi/crypto/crypto.go`), together with theorems settling the frozen claims
about them.

Modelling conventions:
* Go maps threaded through the upgrade are represented as association lists
  (`List (String × _)`); a Go `map[string]*T` keyed by object name yields a
  list whose mapped names are `Nodup`.
* In-place mutation through pointers is represented by returning the updated
  list; a `nil`-pointer dereference (a Go panic) is represented by `none` in
  an `Option` result.
* Fallible store access is represented with `Except String`.
-/

set_option autoImplicit false

namespace Longhorn

/-- One entry of the deprecated `Engine.Status.BackupStatus` map
(`longhorn.BackupStatus` in the Go types). -/
structure BackupStatusEntry where
  progress : Int
  backupURL : String
  error : String
  snapshotName : String
  state : String
  replicaAddress : String
deriving DecidableEq

/-- The status sub-record of a Backup CR, restricted to the fields the
upgrade touches. -/
structure BackupStatusRec where
  progress : Int
  url : String
  error : String
  snapshotName : String
  state : String
  replicaAddress : String
deriving DecidableEq

/-- A Backup CR: name, labels and status. -/
structure Backup where
  name : String
  labels : List (String × String)
  status : BackupStatusRec
deriving DecidableEq

/-- The spec sub-record of an Engine CR, restricted to the fields the
upgrade reads or writes. -/
structure EngineSpec where
  volumeName : String
  nodeID : String
  desireState : String
  active : Bool
deriving DecidableEq

/-- The status sub-record of an Engine CR. `backupStatus = none` models the
Go `nil` map (indexing a nil Go map yields "absent"). -/
structure EngineStatus where
  currentState : String
  backupStatus : Option (List (String × BackupStatusEntry))
deriving DecidableEq

/-- An Engine CR. -/
structure Engine where
  name : String
  labels : List (String × String)
  spec : EngineSpec
  status : EngineStatus
deriving DecidableEq

/-- The spec sub-record of a Volume CR (only `NodeID` is read). -/
structure VolumeSpec where
  nodeID : String
deriving DecidableEq

/-- The status sub-record of a Volume CR. -/
structure VolumeStatus where
  currentNodeID : String
  pendingNodeID : String
deriving DecidableEq

/-- A Volume CR. -/
structure Volume where
  name : String
  spec : VolumeSpec
  status : VolumeStatus
deriving DecidableEq

/-- Modelled from the spec: `longhorn.InstanceStateRunning`, the canonical
"running" instance state (the constant lives in the types package, outside
the provided sources). -/
def instanceStateRunning : String := "running"

/-- Modelled from the spec: the label key `types.LonghornLabelVolume`
associating an Engine to its Volume (outside the provided sources; the
concrete key text is irrelevant to every claim). -/
def longhornLabelVolume : String := "longhornvolume"

/-- Modelled from the spec: the label key `types.LonghornLabelBackupVolume`
associating a Backup to its Volume (outside the provided sources). -/
def longhornLabelBackupVolume : String := "backup-volume"

/-- Label lookup; `none` is Go's comma-ok `exist = false`. -/
def getLabel (labels : List (String × String)) (k : String) : Option String :=
  List.lookup k labels

/-! Embedding of upgradeBackups (upgrade.go lines 28-102). -/

/-- The `volumeNameToEngines` index of `upgradeBackups`: Go builds a map by
appending each engine under its `Labels[LonghornLabelVolume]` key (a missing
label indexes as the empty string); looking a name up yields exactly the
engines whose label equals it, in the original order, and `[]` for an absent
key (Go nil slice). -/
def volumeNameToEngines (engines : List Engine) (volumeName : String) : List Engine :=
  engines.filter (fun e => (getLabel e.labels longhornLabelVolume).getD "" == volumeName)

/-- Outcome of the engine-selection `switch` in `upgradeBackups`:
`skip` models the `continue` paths, `nilEngine` models falling through with
the `engine` pointer still `nil`, `selected e` models `engine = e`. -/
inductive EngineSel where
  | skip : EngineSel
  | nilEngine : EngineSel
  | selected : Engine → EngineSel
deriving DecidableEq

/-- The `switch len(engines)` block of `upgradeBackups` (lines 66-86):
zero candidates → continue; one candidate → select it; several → look the
volume up (continue if absent) and select the first engine whose nodeID
equals the volume's `Status.CurrentNodeID` with desired and current state
both running; if none matches the `engine` pointer remains nil. -/
def selectBackupEngine (engines : List Engine) (volumeMap : List (String × Volume))
    (volumeName : String) : EngineSel :=
  match engines with
  | [] => EngineSel.skip
  | [e] => EngineSel.selected e
  | _ :: _ :: _ =>
    match List.lookup volumeName volumeMap with
    | none => EngineSel.skip
    | some v =>
      match engines.find? (fun e =>
          e.spec.nodeID == v.status.currentNodeID &&
          e.spec.desireState == instanceStateRunning &&
          e.status.currentState == instanceStateRunning) with
      | some e => EngineSel.selected e
      | none => EngineSel.nilEngine

/-- Lines 88-99 of `upgradeBackups`: if the selected engine's
`Status.BackupStatus` holds an entry keyed by the backup's name, copy its
six fields onto the backup's status (the state through
`engineapi.ConvertEngineBackupState`, abstracted as `convert`); otherwise
leave the backup untouched. -/
def copyBackupStatus (convert : String → String) (backup : Backup) (e : Engine) : Backup :=
  match List.lookup backup.name (e.status.backupStatus.getD []) with
  | none => backup
  | some bs =>
    { backup with status :=
      { progress := bs.progress
        url := bs.backupURL
        error := bs.error
        snapshotName := bs.snapshotName
        state := convert bs.state
        replicaAddress := bs.replicaAddress } }

/-- The body of the per-backup loop of `upgradeBackups` (lines 55-100).
`none` models the Go panic from dereferencing the nil `engine` pointer at
line 89 (`engine.Status.BackupStatus[backup.Name]` with `engine == nil`). -/
def processBackup (engines : List Engine) (volumeMap : List (String × Volume))
    (convert : String → String) (backup : Backup) : Option Backup :=
  match getLabel backup.labels longhornLabelBackupVolume with
  | none => some backup
  | some volumeName =>
    match selectBackupEngine (volumeNameToEngines engines volumeName) volumeMap volumeName with
    | EngineSel.skip => some backup
    | EngineSel.nilEngine => none
    | EngineSel.selected e => some (copyBackupStatus convert backup e)

/-- The whole `upgradeBackups` loop over the cached backups (the three
`ListAndUpdate...InProvidedCache` calls are modelled by the already-listed
`engines`, `volumeMap` and backup-list arguments). `none` models a panic. -/
def upgradeBackups (engines : List Engine) (volumeMap : List (String × Volume))
    (convert : String → String) : List Backup → Option (List Backup)
  | [] => some []
  | b :: rest =>
    match processBackup engines volumeMap convert b with
    | none => none
    | some b2 =>
      match upgradeBackups engines volumeMap convert rest with
      | none => none
      | some rest2 => some (b2 :: rest2)

/-! Embedding of checkAndRemoveEngineBackupStatus (upgrade.go lines 122-135). -/

/-- Line 131: `engine.Status.BackupStatus = nil`. -/
def clearBackupStatus (e : Engine) : Engine :=
  { e with status := { e.status with backupStatus := none } }

/-- `checkAndRemoveEngineBackupStatus`: the engine listing may fail (modelled
by the `Except` argument), and on success every cached engine has its
deprecated `backupStatus` field cleared in place. -/
def checkAndRemoveEngineBackupStatus (listEnginesResult : Except String (List Engine)) :
    Except String (List Engine) :=
  match listEnginesResult with
  | Except.error err => Except.error err
  | Except.ok engines => Except.ok (engines.map clearBackupStatus)

/-! Embedding of checkAndUpdateEngineActiveState (upgrade.go lines 137-191). -/

/-- The three-way node-affinity test of lines 175-177: the volume's desired
(`Spec.NodeID`), current and pending node IDs, each guarded by non-emptiness,
as alternative equality tests against the engine's nodeID. -/
def engineMatchesVolume (v : Volume) (e : Engine) : Bool :=
  (v.spec.nodeID != "" && v.spec.nodeID == e.spec.nodeID) ||
  (v.status.currentNodeID != "" && v.status.currentNodeID == e.spec.nodeID) ||
  (v.status.pendingNodeID != "" && v.status.pendingNodeID == e.spec.nodeID)

/-- Modelled from the spec: `upgradeutil.GetVolumeFromProvidedCache` (outside
the provided sources) returns the cached/stored volume and fails with a
NotFound error when neither the cache nor the store has it. -/
def getVolumeFromProvidedCache (volumeMap : List (String × Volume)) (name : String) :
    Except String Volume :=
  match List.lookup name volumeMap with
  | some v => Except.ok v
  | none => Except.error (name ++ " not found")

/-- The body of the per-volume-group loop of `checkAndUpdateEngineActiveState`
(lines 153-188), returning the name of the engine whose `Spec.Active` is set
to true, `none` when the group is skipped (an engine already active, or no
node-affinity match — the logged, non-fatal case), and an error exactly when
the volume fetch of line 170 fails (line 172 `return err`). -/
def processGroup (volumeMap : List (String × Volume)) (volumeName : String)
    (engineList : List Engine) : Except String (Option String) :=
  if engineList.any (fun e => e.spec.active) then Except.ok none
  else
    match engineList with
    | [e] => Except.ok (some e.name)
    | _ =>
      match getVolumeFromProvidedCache volumeMap volumeName with
      | Except.error err => Except.error err
      | Except.ok v =>
        match engineList.find? (engineMatchesVolume v) with
        | some e => Except.ok (some e.name)
        | none => Except.ok none

/-- Line 187: `currentEngine.Spec.Active = true`. -/
def setActive (e : Engine) : Engine :=
  { e with spec := { e.spec with active := true } }

/-- In-place activation of the engine pointer, represented by updating the
(uniquely named, map-keyed) engine in the list. -/
def activateEngine (engines : List Engine) (en : String) : List Engine :=
  engines.map (fun e => if e.name == en then setActive e else e)

/-- Insertion-order set insertion, mirroring first insertion into a Go map. -/
def insertName (acc : List String) (n : String) : List String :=
  if n ∈ acc then acc else acc ++ [n]

/-- Accumulate the distinct non-empty volume names in first-occurrence
order. -/
def namesAcc : List String → List String → List String
  | acc, [] => acc
  | acc, n :: rest => namesAcc (if n = "" then acc else insertName acc n) rest

/-- The key set of the `volumeEngineMap` of lines 143-150: engines with an
empty `Spec.VolumeName` are discarded (orphan engines are never touched). -/
def volumeNames (engines : List Engine) : List String :=
  namesAcc [] (engines.map (fun e => e.spec.volumeName))

/-- The engine group of one volume name (the `volumeEngineMap` entry). -/
def groupOf (engines : List Engine) (n : String) : List Engine :=
  engines.filter (fun e => e.spec.volumeName == n)

/-- The per-group loop of lines 153-188, iterating the volume names and
threading the in-place engine mutations. -/
def goActive (volumeMap : List (String × Volume)) :
    List String → List Engine → Except String (List Engine)
  | [], acc => Except.ok acc
  | n :: rest, acc =>
    match processGroup volumeMap n (groupOf acc n) with
    | Except.error err => Except.error err
    | Except.ok none => goActive volumeMap rest acc
    | Except.ok (some en) => goActive volumeMap rest (activateEngine acc en)

/-- `checkAndUpdateEngineActiveState` over the already-listed engine cache:
group by volume name (discarding empty names) and reconcile each group. -/
def checkAndUpdateEngineActiveState (volumeMap : List (String × Volume))
    (engines : List Engine) : Except String (List Engine) :=
  goActive volumeMap (volumeNames engines) engines

/-- Number of active engines in a list. -/
def countActive (engines : List Engine) : Nat :=
  engines.countP (fun e => e.spec.active)

end Longhorn

namespace Crypto

/-- The constant of crypto.go line 12. -/
def mapperFilePathPfx : String := "/dev/mapper"

/-- Go `strings.HasPrefix pat s`, computed on the character lists (equal to
`String.isPrefixOf`, but kernel-reducible for concrete inputs). -/
def hasPfx (pat s : String) : Bool :=
  pat.toList.isPrefixOf s.toList

/-- Go `strings.TrimPrefix`: drop the leading occurrence of the pattern if
present, else return the string unchanged. -/
def trimPfx (pat s : String) : String :=
  if hasPfx pat s then s.drop pat.length else s

/-- Go `strings.SplitN(s, sep, 2)`: split at the first separator only. -/
def splitN2 (s sep : String) : List String :=
  match s.splitOn sep with
  | [] => []
  | a :: rest => if rest.isEmpty then [a] else [a, String.intercalate sep rest]

/-- Go `strings.Contains s sub` for a non-empty pattern: splitting on the
pattern yields more than one part exactly when the pattern occurs. -/
def containsSub (s sub : String) : Bool :=
  Nat.blt 1 (s.splitOn sub).length

/-- The status-line scan of `DeviceEncryptionStatus` lines 135-146: on each
line after the first, split once at the colon; `len(kv) < 1` is the
badly-formatted error; a "device" key returns the trimmed value and the
volume; a "device" line with no colon makes Go index `kv[1]` out of range
(panic, modelled `none`); after the loop, the mapped-device-not-found error.
Each successful result is `(mappedDevice, mapper, err)`. -/
def scanDeviceLines (devicePath volume : String) :
    List String → Option (String × String × Option String)
  | [] => some ("", "", some ("mapped device not found in path " ++ devicePath))
  | line :: rest =>
    match splitN2 line.trim ":" with
    | [] => some ("", "", some ("device encryption status output for " ++ devicePath ++
        " is badly formatted: " ++ line))
    | [k] => if k == "device" then none else scanDeviceLines devicePath volume rest
    | k :: v2 :: _ =>
      if k == "device" then some (v2.trim, volume, none)
      else scanDeviceLines devicePath volume rest

/-- `DeviceEncryptionStatus` (crypto.go lines 117-147), parameterised by the
external `luksStatus` command (its stdout or failure). The Go triple return
`(mappedDevice, mapper string, err error)` is `(String × String × Option
String)`; the outer `Option` is `none` only on the Go slice-index panic
inside the line scan. -/
def deviceEncryptionStatus (luksStatus : String → Except String String)
    (devicePath : String) : Option (String × String × Option String) :=
  if ! hasPfx mapperFilePathPfx devicePath then some (devicePath, "", none)
  else
    let volume := trimPfx (mapperFilePathPfx ++ "/") devicePath
    match luksStatus volume with
    | Except.error _ => some (devicePath, "", none)
    | Except.ok stdout =>
      match stdout.splitOn "\n" with
      | [] => some ("", "", some ("device encryption status returned no stdout for " ++
          devicePath))
      | l0 :: rest =>
        if ! containsSub l0 " is active" then some (devicePath, "", none)
        else scanDeviceLines devicePath volume rest

/-- `IsDeviceOpen` (crypto.go lines 109-112): open iff the mapper name is
non-empty, passing the error through. -/
def isDeviceOpen (luksStatus : String → Except String String) (device : String) :
    Option (Bool × Option String) :=
  match deviceEncryptionStatus luksStatus device with
  | none => none
  | some (_, mappedFile, err) => some (mappedFile != "", err)

end Crypto

/-!
Helper lemmas about the active-state reconciliation.
-/

namespace Longhorn

theorem setActive_name (e : Engine) : (setActive e).name = e.name := rfl

theorem setActive_volumeName (e : Engine) : (setActive e).spec.volumeName = e.spec.volumeName :=
  rfl

theorem setActive_active (e : Engine) : (setActive e).spec.active = true := rfl

theorem activateEngine_cons (e : Engine) (tl : List Engine) (en : String) :
    activateEngine (e :: tl) en =
      (if e.name == en then setActive e else e) :: activateEngine tl en := rfl

theorem activateEngine_map_name (engines : List Engine) (en : String) :
    (activateEngine engines en).map (fun e => e.name) = engines.map (fun e => e.name) := by
  induction engines with
  | nil => rfl
  | cons e tl ih =>
    rw [activateEngine_cons]
    by_cases h : (e.name == en) = true <;> simp [h, ih, setActive_name]

theorem activateEngine_map_volumeName (engines : List Engine) (en : String) :
    (activateEngine engines en).map (fun e => e.spec.volumeName) =
      engines.map (fun e => e.spec.volumeName) := by
  induction engines with
  | nil => rfl
  | cons e tl ih =>
    rw [activateEngine_cons]
    by_cases h : (e.name == en) = true <;> simp [h, ih, setActive_volumeName]

theorem groupOf_cons (e : Engine) (tl : List Engine) (n : String) :
    groupOf (e :: tl) n =
      if e.spec.volumeName == n then e :: groupOf tl n else groupOf tl n := by
  simp [groupOf, List.filter_cons]

theorem groupOf_activateEngine (engines : List Engine) (en n : String) :
    groupOf (activateEngine engines en) n = activateEngine (groupOf engines n) en := by
  induction engines with
  | nil => rfl
  | cons e tl ih =>
    rw [activateEngine_cons, groupOf_cons]
    by_cases hn : (e.name == en) = true <;>
      by_cases hv : (e.spec.volumeName == n) = true <;>
      simp [hn, hv, setActive_volumeName, activateEngine_cons, ih, groupOf_cons]

theorem activateEngine_id (engines : List Engine) (en : String)
    (h : ∀ e ∈ engines, e.name ≠ en) : activateEngine engines en = engines := by
  induction engines with
  | nil => rfl
  | cons e tl ih =>
    rw [activateEngine_cons]
    have he : (e.name == en) = false := by
      simpa using h e (List.mem_cons_self e tl)
    rw [he]
    simp [ih (fun x hx => h x (List.mem_cons_of_mem _ hx))]

theorem eq_of_name_eq (engines : List Engine)
    (hnn : (engines.map (fun e => e.name)).Nodup)
    (e₁ e₂ : Engine) (h₁ : e₁ ∈ engines) (h₂ : e₂ ∈ engines) (h : e₁.name = e₂.name) :
    e₁ = e₂ :=
  List.inj_on_of_nodup_map hnn h₁ h₂ h

theorem activateEngine_any_active (engines : List Engine) (en : String) (e₀ : Engine)
    (hm : e₀ ∈ engines) (hn : e₀.name = en) :
    (activateEngine engines en).any (fun e => e.spec.active) = true := by
  have hmem : setActive e₀ ∈ activateEngine engines en := by
    have h := List.mem_map_of_mem (fun e => if e.name == en then setActive e else e) hm
    simpa [activateEngine, hn] using h
  exact List.any_eq_true.mpr ⟨setActive e₀, hmem, setActive_active e₀⟩

theorem mem_insertName (acc : List String) (n m : String) :
    m ∈ insertName acc n ↔ m ∈ acc ∨ m = n := by
  unfold insertName
  by_cases h : n ∈ acc
  · simp only [h, if_true]
    constructor
    · exact Or.inl
    · rintro (hm | rfl)
      · exact hm
      · exact h
  · simp [h]

theorem insertName_nodup (acc : List String) (n : String) (h : acc.Nodup) :
    (insertName acc n).Nodup := by
  unfold insertName
  by_cases hn : n ∈ acc
  · simpa [hn]
  · simp [hn, List.nodup_append, h]

theorem mem_namesAcc (l : List String) : ∀ (acc : List String) (m : String),
    m ∈ namesAcc acc l ↔ m ∈ acc ∨ (m ≠ "" ∧ m ∈ l) := by
  induction l with
  | nil => intro acc m; simp [namesAcc]
  | cons n rest ih =>
    intro acc m
    rw [namesAcc]
    by_cases h : n = ""
    · subst h
      simp only [if_true, ih]
      constructor
      · rintro (hm | ⟨hne, hr⟩)
        · exact Or.inl hm
        · exact Or.inr ⟨hne, List.mem_cons_of_mem _ hr⟩
      · rintro (hm | ⟨hne, hr⟩)
        · exact Or.inl hm
        · rcases List.mem_cons.mp hr with rfl | hr
          · exact absurd rfl hne
          · exact Or.inr ⟨hne, hr⟩
    · simp only [h, if_false, ih, mem_insertName]
      constructor
      · rintro ((hm | rfl) | ⟨hne, hr⟩)
        · exact Or.inl hm
        · exact Or.inr ⟨h, List.mem_cons_self _ _⟩
        · exact Or.inr ⟨hne, List.mem_cons_of_mem _ hr⟩
      · rintro (hm | ⟨hne, hr⟩)
        · exact Or.inl (Or.inl hm)
        · rcases List.mem_cons.mp hr with rfl | hr
          · exact Or.inl (Or.inr rfl)
          · exact Or.inr ⟨hne, hr⟩

theorem namesAcc_nodup (l : List String) : ∀ (acc : List String), acc.Nodup →
    (namesAcc acc l).Nodup := by
  induction l with
  | nil => intro acc h; simpa [namesAcc]
  | cons n rest ih =>
    intro acc h
    rw [namesAcc]
    by_cases hn : n = ""
    · simpa [hn] using ih acc h
    · simpa [hn] using ih _ (insertName_nodup acc n h)

theorem volumeNames_nodup (engines : List Engine) : (volumeNames engines).Nodup :=
  namesAcc_nodup _ [] List.nodup_nil

theorem mem_volumeNames (engines : List Engine) (n : String) :
    n ∈ volumeNames engines ↔ n ≠ "" ∧ ∃ e ∈ engines, e.spec.volumeName = n := by
  unfold volumeNames
  rw [mem_namesAcc]
  simp [List.mem_map, eq_comm]

theorem volumeNames_activateEngine (engines : List Engine) (en : String) :
    volumeNames (activateEngine engines en) = volumeNames engines := by
  unfold volumeNames
  rw [activateEngine_map_volumeName]

theorem mem_groupOf (engines : List Engine) (n : String) (e : Engine) :
    e ∈ groupOf engines n ↔ e ∈ engines ∧ e.spec.volumeName = n := by
  simp [groupOf, List.mem_filter]

theorem groupOf_map_name_nodup (engines : List Engine)
    (hnn : (engines.map (fun e => e.name)).Nodup) (n : String) :
    ((groupOf engines n).map (fun e => e.name)).Nodup :=
  List.Nodup.sublist (List.Sublist.map _ (List.filter_sublist engines)) hnn

end Longhorn

namespace Longhorn

theorem processGroup_skip (vm : List (String × Volume)) (n : String) (g : List Engine)
    (h : g.any (fun e => e.spec.active) = true) :
    processGroup vm n g = Except.ok none := by
  unfold processGroup
  simp [h]

theorem processGroup_single (vm : List (String × Volume)) (n : String) (e : Engine)
    (h : e.spec.active = false) :
    processGroup vm n [e] = Except.ok (some e.name) := by
  unfold processGroup
  simp [h]

theorem processGroup_multi (vm : List (String × Volume)) (n : String) (a b : Engine)
    (t : List Engine) (ha : ((a :: b :: t).any (fun e => e.spec.active)) = false) :
    processGroup vm n (a :: b :: t) =
      match getVolumeFromProvidedCache vm n with
      | Except.error err => Except.error err
      | Except.ok v =>
        match (a :: b :: t).find? (engineMatchesVolume v) with
        | some e => Except.ok (some e.name)
        | none => Except.ok none := by
  unfold processGroup
  simp [ha]

theorem processGroup_some_mem (vm : List (String × Volume)) (n : String) (g : List Engine)
    (en : String) (h : processGroup vm n g = Except.ok (some en)) :
    ∃ e ∈ g, e.name = en := by
  unfold processGroup at h
  by_cases ha : g.any (fun e => e.spec.active) = true
  · simp [ha] at h
  · simp only [ha, if_false, Bool.false_eq_true] at h
    split at h
    · rename_i e
      simp only [Except.ok.injEq, Option.some.injEq] at h
      exact ⟨e, List.mem_cons_self e [], h⟩
    · split at h
      · simp at h
      · split at h
        · rename_i v hv e hfind
          simp only [Except.ok.injEq, Option.some.injEq] at h
          exact ⟨e, List.mem_of_find?_eq_some hfind, h⟩
        · simp at h

theorem goActive_nil (vm : List (String × Volume)) (acc : List Engine) :
    goActive vm [] acc = Except.ok acc := rfl

theorem goActive_cons (vm : List (String × Volume)) (n : String) (rest : List String)
    (acc : List Engine) :
    goActive vm (n :: rest) acc =
      match processGroup vm n (groupOf acc n) with
      | Except.error err => Except.error err
      | Except.ok none => goActive vm rest acc
      | Except.ok (some en) => goActive vm rest (activateEngine acc en) := rfl

theorem goActive_keys (vm : List (String × Volume)) (names : List String) :
    ∀ (acc final : List Engine), goActive vm names acc = Except.ok final →
    final.map (fun e => e.name) = acc.map (fun e => e.name) ∧
    final.map (fun e => e.spec.volumeName) = acc.map (fun e => e.spec.volumeName) := by
  induction names with
  | nil =>
    intro acc final h
    rw [goActive_nil] at h
    simp only [Except.ok.injEq] at h
    subst h
    exact ⟨rfl, rfl⟩
  | cons n rest ih =>
    intro acc final h
    rw [goActive_cons] at h
    split at h
    · simp at h
    · exact ih acc final h
    · rename_i en _
      have hr := ih (activateEngine acc en) final h
      rw [activateEngine_map_name, activateEngine_map_volumeName] at hr
      exact hr

theorem groupOf_activateEngine_other (acc : List Engine) (en n : String)
    (hnn : (acc.map (fun e => e.name)).Nodup)
    (e₀ : Engine) (he₀acc : e₀ ∈ acc) (he₀n : e₀.name = en)
    (he₀vol : e₀.spec.volumeName ≠ n) :
    groupOf (activateEngine acc en) n = groupOf acc n := by
  rw [groupOf_activateEngine]
  apply activateEngine_id
  intro e he hene
  have heacc : e ∈ acc := ((mem_groupOf acc n e).mp he).1
  have hevol : e.spec.volumeName = n := ((mem_groupOf acc n e).mp he).2
  have heq₀ : e = e₀ := eq_of_name_eq acc hnn e e₀ heacc he₀acc (hene.trans he₀n.symm)
  exact he₀vol (heq₀ ▸ hevol)

theorem goActive_untouched (vm : List (String × Volume)) (names : List String) :
    ∀ (acc final : List Engine), (acc.map (fun e => e.name)).Nodup →
    goActive vm names acc = Except.ok final →
    ∀ m, m ∉ names → groupOf final m = groupOf acc m := by
  induction names with
  | nil =>
    intro acc final _ h m _
    rw [goActive_nil] at h
    simp only [Except.ok.injEq] at h
    subst h
    rfl
  | cons n rest ih =>
    intro acc final hnn h m hm
    have hmn : m ≠ n := fun hh => hm (hh ▸ List.mem_cons_self n rest)
    have hmr : m ∉ rest := fun hh => hm (List.mem_cons_of_mem _ hh)
    rw [goActive_cons] at h
    split at h
    · simp at h
    · exact ih acc final hnn h m hmr
    · rename_i en heq
      obtain ⟨e₀, he₀g, he₀n⟩ := processGroup_some_mem vm n (groupOf acc n) en heq
      have he₀acc : e₀ ∈ acc := ((mem_groupOf acc n e₀).mp he₀g).1
      have he₀vol : e₀.spec.volumeName = n := ((mem_groupOf acc n e₀).mp he₀g).2
      have hnn' : ((activateEngine acc en).map (fun e => e.name)).Nodup := by
        rw [activateEngine_map_name]
        exact hnn
      have step : groupOf (activateEngine acc en) m = groupOf acc m := by
        refine groupOf_activateEngine_other acc en m hnn e₀ he₀acc he₀n ?_
        rw [he₀vol]
        exact fun hh => hmn hh.symm
      rw [← step]
      exact ih _ final hnn' h m hmr

end Longhorn

namespace Longhorn

theorem goActive_group_outcome (vm : List (String × Volume)) (names : List String) :
    ∀ (acc final : List Engine), (acc.map (fun e => e.name)).Nodup → names.Nodup →
    goActive vm names acc = Except.ok final →
    ∀ n ∈ names,
      (processGroup vm n (groupOf acc n) = Except.ok none ∧
        groupOf final n = groupOf acc n) ∨
      (∃ en, processGroup vm n (groupOf acc n) = Except.ok (some en) ∧
        groupOf final n = activateEngine (groupOf acc n) en) := by
  induction names with
  | nil => intro acc final _ _ _ n hn; exact absurd hn (List.not_mem_nil n)
  | cons n0 rest ih =>
    intro acc final hnn hnd h n hn
    have hn0r : n0 ∉ rest := (List.nodup_cons.mp hnd).1
    have hndr : rest.Nodup := (List.nodup_cons.mp hnd).2
    rw [goActive_cons] at h
    split at h
    · simp at h
    · rename_i heq
      rcases List.mem_cons.mp hn with rfl | hnr
      · exact Or.inl ⟨heq, goActive_untouched vm rest acc final hnn h n hn0r⟩
      · exact ih acc final hnn hndr h n hnr
    · rename_i en heq
      obtain ⟨e₀, he₀g, he₀n⟩ := processGroup_some_mem vm n0 (groupOf acc n0) en heq
      have he₀acc : e₀ ∈ acc := ((mem_groupOf acc n0 e₀).mp he₀g).1
      have he₀vol : e₀.spec.volumeName = n0 := ((mem_groupOf acc n0 e₀).mp he₀g).2
      have hnn' : ((activateEngine acc en).map (fun e => e.name)).Nodup := by
        rw [activateEngine_map_name]
        exact hnn
      rcases List.mem_cons.mp hn with rfl | hnr
      · refine Or.inr ⟨en, heq, ?_⟩
        have hu := goActive_untouched vm rest (activateEngine acc en) final hnn' h n hn0r
        rw [hu, groupOf_activateEngine]
      · have hne : n ≠ n0 := fun hh => hn0r (hh ▸ hnr)
        have hgrp : groupOf (activateEngine acc en) n = groupOf acc n := by
          refine groupOf_activateEngine_other acc en n hnn e₀ he₀acc he₀n ?_
          rw [he₀vol]
          exact fun hh => hne hh.symm
        have hres := ih (activateEngine acc en) final hnn' hndr h n hnr
        rw [hgrp] at hres
        exact hres

theorem goActive_error_of_group (vm : List (String × Volume)) (names : List String) :
    ∀ (acc : List Engine) (n : String), (acc.map (fun e => e.name)).Nodup → n ∈ names →
    (∃ err, processGroup vm n (groupOf acc n) = Except.error err) →
    ∃ msg, goActive vm names acc = Except.error msg := by
  induction names with
  | nil => intro acc n _ hn _; exact absurd hn (List.not_mem_nil n)
  | cons n0 rest ih =>
    intro acc n hnn hn hpe
    rcases List.mem_cons.mp hn with rfl | hnr
    · obtain ⟨err, herr⟩ := hpe
      rw [goActive_cons, herr]
      exact ⟨err, rfl⟩
    · cases hx : processGroup vm n0 (groupOf acc n0) with
      | error err =>
        rw [goActive_cons, hx]
        exact ⟨err, rfl⟩
      | ok oen =>
        rw [goActive_cons, hx]
        cases oen with
        | none => exact ih acc n hnn hnr hpe
        | some en =>
          by_cases hne : n = n0
          · obtain ⟨err, herr⟩ := hpe
            rw [hne] at herr
            rw [herr] at hx
            simp at hx
          · obtain ⟨e₀, he₀g, he₀n⟩ := processGroup_some_mem vm n0 (groupOf acc n0) en hx
            have he₀acc : e₀ ∈ acc := ((mem_groupOf acc n0 e₀).mp he₀g).1
            have he₀vol : e₀.spec.volumeName = n0 := ((mem_groupOf acc n0 e₀).mp he₀g).2
            have hnn' : ((activateEngine acc en).map (fun e => e.name)).Nodup := by
              rw [activateEngine_map_name]
              exact hnn
            have hgrp : groupOf (activateEngine acc en) n = groupOf acc n := by
              refine groupOf_activateEngine_other acc en n hnn e₀ he₀acc he₀n ?_
              rw [he₀vol]
              exact fun hh => hne hh.symm
            refine ih (activateEngine acc en) n hnn' hnr ?_
            rw [hgrp]
            exact hpe

theorem goActive_fixed (vm : List (String × Volume)) (names : List String) :
    ∀ (acc : List Engine),
    (∀ n ∈ names, processGroup vm n (groupOf acc n) = Except.ok none) →
    goActive vm names acc = Except.ok acc := by
  induction names with
  | nil => intro acc _; rfl
  | cons n0 rest ih =>
    intro acc h
    rw [goActive_cons, h n0 (List.mem_cons_self _ _)]
    exact ih acc (fun n hn => h n (List.mem_cons_of_mem _ hn))

end Longhorn

namespace Longhorn

theorem any_of_countActive_pos (g : List Engine) (h : 0 < countActive g) :
    g.any (fun e => e.spec.active) = true := by
  obtain ⟨e, he, hact⟩ := List.countP_pos_iff.mp h
  exact List.any_eq_true.mpr ⟨e, he, hact⟩

theorem all_inactive_of_countActive_zero (g : List Engine) (h : countActive g = 0) :
    ∀ e ∈ g, e.spec.active = false := by
  intro e he
  have := List.countP_eq_zero.mp h e he
  simpa using this

theorem any_eq_false_of_countActive_zero (g : List Engine) (h : countActive g = 0) :
    g.any (fun e => e.spec.active) = false := by
  rw [List.any_eq_false]
  intro e he
  simp [all_inactive_of_countActive_zero g h e he]

theorem countActive_activateEngine_one (g : List Engine) (em : Engine)
    (h0 : ∀ e ∈ g, e.spec.active = false)
    (hnames : (g.map (fun e => e.name)).Nodup) (hm : em ∈ g) :
    countActive (activateEngine g em.name) = 1 := by
  induction g with
  | nil => exact absurd hm (List.not_mem_nil em)
  | cons a t ih =>
    rw [activateEngine_cons]
    have hnt : (t.map (fun e => e.name)).Nodup := (List.nodup_cons.mp hnames).2
    have hna : a.name ∉ t.map (fun e => e.name) := (List.nodup_cons.mp hnames).1
    by_cases hn : (a.name == em.name) = true
    · have hae : a.name = em.name := by simpa using hn
      have htid : activateEngine t em.name = t := by
        apply activateEngine_id
        intro e he hename
        exact hna (hae ▸ hename ▸ List.mem_map_of_mem (fun e => e.name) he)
      rw [hn]
      simp only [if_true]
      unfold countActive
      rw [List.countP_cons, htid]
      have hz : t.countP (fun e => e.spec.active) = 0 := by
        rw [List.countP_eq_zero]
        intro e he
        simp [h0 e (List.mem_cons_of_mem a he)]
      simp [hz, setActive_active]
    · have hane : a.name ≠ em.name := by simpa using hn
      have hmt : em ∈ t := by
        rcases List.mem_cons.mp hm with rfl | hmt
        · exact absurd rfl hane
        · exact hmt
      have hnf : (a.name == em.name) = false := by simpa using hn
      simp only [hnf, Bool.false_eq_true, if_false]
      unfold countActive
      rw [List.countP_cons]
      have haz : a.spec.active = false := h0 a (List.mem_cons_self a t)
      have := ih (fun e he => h0 e (List.mem_cons_of_mem a he)) hnt hmt
      unfold countActive at this
      simp [haz, this]

theorem find?_eq_of_filter_singleton (p : Engine → Bool) (g : List Engine) (em : Engine)
    (h : g.filter p = [em]) : g.find? p = some em := by
  induction g with
  | nil => simp at h
  | cons a t ih =>
    rw [List.filter_cons] at h
    by_cases hp : p a = true
    · rw [if_pos hp] at h
      have ha : a = em := (List.cons.injEq a (t.filter p) em []).mp h |>.1
      rw [List.find?_cons_of_pos _ hp, ha]
    · rw [if_neg hp] at h
      rw [List.find?_cons_of_neg _ hp]
      exact ih h

end Longhorn

namespace Longhorn

/-- C4: `checkAndUpdateEngineActiveState` is idempotent: running it twice on
the same (uniquely named, map-keyed) engine set produces the same result as
running it once; in particular, every volume group containing at least one
engine with `active = true` (even more than one) is skipped entirely
unchanged. -/
theorem checkAndUpdateEngineActiveState_idempotent (vm : List (String × Volume))
    (engines final : List Engine)
    (hnn : (engines.map (fun e => e.name)).Nodup)
    (hrun : checkAndUpdateEngineActiveState vm engines = Except.ok final) :
    checkAndUpdateEngineActiveState vm final = Except.ok final ∧
    ∀ n ∈ volumeNames engines,
      (groupOf engines n).any (fun e => e.spec.active) = true →
      groupOf final n = groupOf engines n := by
  unfold checkAndUpdateEngineActiveState at hrun ⊢
  have hkeys := goActive_keys vm (volumeNames engines) engines final hrun
  have hvn : volumeNames final = volumeNames engines := by
    unfold volumeNames
    rw [hkeys.2]
  have hnames := volumeNames_nodup engines
  have hout := goActive_group_outcome vm (volumeNames engines) engines final hnn hnames hrun
  constructor
  · rw [hvn]
    apply goActive_fixed
    intro n hn
    rcases hout n hn with ⟨hpg, hgrp⟩ | ⟨en, hpg, hgrp⟩
    · rw [hgrp]
      exact hpg
    · obtain ⟨e₀, he₀g, he₀n⟩ := processGroup_some_mem vm n _ en hpg
      apply processGroup_skip
      rw [hgrp]
      exact activateEngine_any_active _ en e₀ he₀g he₀n
  · intro n hn hact
    rcases hout n hn with ⟨_, hgrp⟩ | ⟨en, hpg, _⟩
    · exact hgrp
    · rw [processGroup_skip vm n _ hact] at hpg
      simp at hpg

/-- Witness for C4 at a concrete input: one inactive single-engine group and
one group whose engine is already active. -/
theorem checkAndUpdateEngineActiveState_idempotent_witness :
    checkAndUpdateEngineActiveState []
      [(⟨"e2", [], ⟨"v2", "n2", "running", true⟩, ⟨"running", none⟩⟩ : Engine),
       (⟨"e1", [], ⟨"v1", "n1", "running", false⟩, ⟨"running", none⟩⟩ : Engine)] =
      Except.ok
      [(⟨"e2", [], ⟨"v2", "n2", "running", true⟩, ⟨"running", none⟩⟩ : Engine),
       (⟨"e1", [], ⟨"v1", "n1", "running", true⟩, ⟨"running", none⟩⟩ : Engine)] ∧
    ∀ n ∈ volumeNames
      [(⟨"e2", [], ⟨"v2", "n2", "running", true⟩, ⟨"running", none⟩⟩ : Engine),
       (⟨"e1", [], ⟨"v1", "n1", "running", false⟩, ⟨"running", none⟩⟩ : Engine)],
      (groupOf
        [(⟨"e2", [], ⟨"v2", "n2", "running", true⟩, ⟨"running", none⟩⟩ : Engine),
         (⟨"e1", [], ⟨"v1", "n1", "running", false⟩, ⟨"running", none⟩⟩ : Engine)] n).any
        (fun e => e.spec.active) = true →
      groupOf
        [(⟨"e2", [], ⟨"v2", "n2", "running", true⟩, ⟨"running", none⟩⟩ : Engine),
         (⟨"e1", [], ⟨"v1", "n1", "running", true⟩, ⟨"running", none⟩⟩ : Engine)] n =
      groupOf
        [(⟨"e2", [], ⟨"v2", "n2", "running", true⟩, ⟨"running", none⟩⟩ : Engine),
         (⟨"e1", [], ⟨"v1", "n1", "running", false⟩, ⟨"running", none⟩⟩ : Engine)] n :=
  checkAndUpdateEngineActiveState_idempotent []
    [(⟨"e2", [], ⟨"v2", "n2", "running", true⟩, ⟨"running", none⟩⟩ : Engine),
     (⟨"e1", [], ⟨"v1", "n1", "running", false⟩, ⟨"running", none⟩⟩ : Engine)]
    [(⟨"e2", [], ⟨"v2", "n2", "running", true⟩, ⟨"running", none⟩⟩ : Engine),
     (⟨"e1", [], ⟨"v1", "n1", "running", true⟩, ⟨"running", none⟩⟩ : Engine)]
    (by decide) (by rfl)

end Longhorn

namespace Longhorn

/-- C5: after `checkAndUpdateEngineActiveState` completes, every volume group
in which a single active engine was resolvable — the group had exactly one
already-active engine, or exactly one engine, or no active engine and exactly
one engine matching a node-affinity field of the (present) owning volume —
ends with exactly one engine whose `active = true`; in particular a group
consisting of a single inactive engine ends with that engine active. (With
two or more engines already active the group is skipped unchanged, so a
single active engine was not resolvable there; see the idempotence claim.) -/
theorem checkAndUpdateEngineActiveState_invariant (vm : List (String × Volume))
    (engines final : List Engine) (n : String)
    (hnn : (engines.map (fun e => e.name)).Nodup)
    (hrun : checkAndUpdateEngineActiveState vm engines = Except.ok final)
    (hmem : n ∈ volumeNames engines)
    (hres : countActive (groupOf engines n) = 1 ∨
            (groupOf engines n).length = 1 ∨
            (countActive (groupOf engines n) = 0 ∧
             ∃ v, List.lookup n vm = some v ∧
               ((groupOf engines n).filter (engineMatchesVolume v)).length = 1)) :
    countActive (groupOf final n) = 1 ∧
    ∀ e, groupOf engines n = [e] → e.spec.active = false →
      groupOf final n = [setActive e] := by
  unfold checkAndUpdateEngineActiveState at hrun
  have hnames := volumeNames_nodup engines
  have hout := goActive_group_outcome vm (volumeNames engines) engines final hnn hnames hrun n hmem
  have hgn : ((groupOf engines n).map (fun e => e.name)).Nodup :=
    groupOf_map_name_nodup engines hnn n
  have hsingle : ∀ e, groupOf engines n = [e] → e.spec.active = false →
      groupOf final n = [setActive e] := by
    intro e hge hia
    rcases hout with ⟨hpg, _⟩ | ⟨en, hpg, hgrp⟩
    · rw [hge, processGroup_single vm n e hia] at hpg
      simp at hpg
    · rw [hge, processGroup_single vm n e hia] at hpg
      simp only [Except.ok.injEq, Option.some.injEq] at hpg
      rw [hge] at hgrp
      rw [hgrp, ← hpg]
      simp [activateEngine]
  have hskipcase : countActive (groupOf engines n) = 1 → countActive (groupOf final n) = 1 := by
    intro hone
    have hany := any_of_countActive_pos (groupOf engines n)
      (by rw [hone]; exact Nat.zero_lt_one)
    rcases hout with ⟨_, hgrp⟩ | ⟨en, hpg, _⟩
    · rw [hgrp]
      exact hone
    · rw [processGroup_skip vm n _ hany] at hpg
      simp at hpg
  refine ⟨?_, hsingle⟩
  rcases hres with hone | hlen | ⟨hzero, v, hv, hfil⟩
  · exact hskipcase hone
  · obtain ⟨e, hge⟩ := List.length_eq_one.mp hlen
    by_cases hact : e.spec.active = true
    · refine hskipcase ?_
      rw [hge]
      unfold countActive
      simp [hact]
    · have hia : e.spec.active = false := by simpa using hact
      rw [hsingle e hge hia]
      unfold countActive
      simp [setActive_active]
  · obtain ⟨em, hfe⟩ := List.length_eq_one.mp hfil
    have hem_g : em ∈ groupOf engines n := by
      have hmf : em ∈ (groupOf engines n).filter (engineMatchesVolume v) := by
        rw [hfe]
        exact List.mem_cons_self _ _
      exact (List.mem_filter.mp hmf).1
    have hall := all_inactive_of_countActive_zero _ hzero
    have hanyf := any_eq_false_of_countActive_zero _ hzero
    have hfind : (groupOf engines n).find? (engineMatchesVolume v) = some em :=
      find?_eq_of_filter_singleton _ _ _ hfe
    rcases hshape : groupOf engines n with _ | ⟨a, t0⟩
    · rw [hshape] at hem_g
      exact absurd hem_g (List.not_mem_nil em)
    · rcases t0 with _ | ⟨b, t⟩
      · have hia : a.spec.active = false := hall a (by rw [hshape]; exact List.mem_cons_self _ _)
        rw [hsingle a hshape hia]
        unfold countActive
        simp [setActive_active]
      · have hpg : processGroup vm n (groupOf engines n) = Except.ok (some em.name) := by
          rw [hshape]
          rw [processGroup_multi vm n a b t (by rw [← hshape]; exact hanyf)]
          have hfind2 : (a :: b :: t).find? (engineMatchesVolume v) = some em := by
            rw [← hshape]
            exact hfind
          simp only [getVolumeFromProvidedCache, hv, hfind2]
        rcases hout with ⟨hpg0, _⟩ | ⟨en, hpg1, hgrp⟩
        · rw [hpg] at hpg0
          simp at hpg0
        · rw [hpg] at hpg1
          simp only [Except.ok.injEq, Option.some.injEq] at hpg1
          rw [hgrp, ← hpg1]
          exact countActive_activateEngine_one _ em hall hgn hem_g

/-- Witness for C5 at a concrete input: the single-engine shortcut. -/
theorem checkAndUpdateEngineActiveState_invariant_witness :
    countActive (groupOf
      [(⟨"e1", [], ⟨"v1", "n1", "running", true⟩, ⟨"running", none⟩⟩ : Engine)] "v1") = 1 ∧
    ∀ e, groupOf
      [(⟨"e1", [], ⟨"v1", "n1", "running", false⟩, ⟨"running", none⟩⟩ : Engine)] "v1" = [e] →
      e.spec.active = false →
      groupOf
        [(⟨"e1", [], ⟨"v1", "n1", "running", true⟩, ⟨"running", none⟩⟩ : Engine)] "v1" =
        [setActive e] :=
  checkAndUpdateEngineActiveState_invariant []
    [(⟨"e1", [], ⟨"v1", "n1", "running", false⟩, ⟨"running", none⟩⟩ : Engine)]
    [(⟨"e1", [], ⟨"v1", "n1", "running", true⟩, ⟨"running", none⟩⟩ : Engine)]
    "v1" (by decide) (by rfl) (by decide) (Or.inr (Or.inl (by decide)))

end Longhorn

namespace Longhorn

/-- C3 amended: in a multi-engine group with no active engine and the owning
volume present, the engine that gets activated is the FIRST engine in
iteration order whose nodeID equals any non-empty one of the volume node
fields (desired, current, pending, each as an alternative equality test);
the selection therefore depends on iteration order, and an engine matching
only the pending node that comes earlier is preferred over a later engine
matching the current node. -/
theorem checkAndUpdateEngineActiveState_first_match (vm : List (String × Volume))
    (engines final : List Engine) (n : String) (v : Volume) (e : Engine)
    (hnn : (engines.map (fun e => e.name)).Nodup)
    (hrun : checkAndUpdateEngineActiveState vm engines = Except.ok final)
    (hmem : n ∈ volumeNames engines)
    (hnoact : (groupOf engines n).any (fun e => e.spec.active) = false)
    (hlen : 2 ≤ (groupOf engines n).length)
    (hv : List.lookup n vm = some v)
    (hfind : (groupOf engines n).find? (engineMatchesVolume v) = some e) :
    groupOf final n = activateEngine (groupOf engines n) e.name := by
  unfold checkAndUpdateEngineActiveState at hrun
  have hout := goActive_group_outcome vm (volumeNames engines) engines final hnn
    (volumeNames_nodup engines) hrun n hmem
  rcases hshape : groupOf engines n with _ | ⟨a, t0⟩
  · rw [hshape] at hlen
    simp at hlen
  · rcases t0 with _ | ⟨b, t⟩
    · rw [hshape] at hlen
      simp at hlen
    · have hpg : processGroup vm n (groupOf engines n) = Except.ok (some e.name) := by
        rw [hshape, processGroup_multi vm n a b t (by rw [← hshape]; exact hnoact)]
        have hfind2 : (a :: b :: t).find? (engineMatchesVolume v) = some e := by
          rw [← hshape]
          exact hfind
        simp only [getVolumeFromProvidedCache, hv, hfind2]
      rcases hout with ⟨hpg0, _⟩ | ⟨en, hpg1, hgrp⟩
      · rw [hpg] at hpg0
        simp at hpg0
      · rw [hpg] at hpg1
        simp only [Except.ok.injEq, Option.some.injEq] at hpg1
        rw [hgrp, ← hpg1, hshape]

/-- Counterexample to C3 as stated: volume v1 has currentNodeID "n2" and
pendingNodeID "n1"; engine e1 (nodeID "n1", matching only the pending node)
comes first in iteration order and engine e2 (nodeID "n2", matching the
current node) second; the run activates e1 and leaves e2 inactive, so the
current-node engine is NOT chosen in preference to the pending-node one
independently of iteration order. -/
theorem checkAndUpdateEngineActiveState_order_counterexample :
    checkAndUpdateEngineActiveState
      [("v1", (⟨"v1", ⟨""⟩, ⟨"n2", "n1"⟩⟩ : Volume))]
      [(⟨"e1", [], ⟨"v1", "n1", "running", false⟩, ⟨"running", none⟩⟩ : Engine),
       (⟨"e2", [], ⟨"v1", "n2", "running", false⟩, ⟨"running", none⟩⟩ : Engine)] =
      Except.ok
      [(⟨"e1", [], ⟨"v1", "n1", "running", true⟩, ⟨"running", none⟩⟩ : Engine),
       (⟨"e2", [], ⟨"v1", "n2", "running", false⟩, ⟨"running", none⟩⟩ : Engine)] := by
  rfl

/-- Witness for the amended C3 at the counterexample input: the first
matching engine e1 is the one activated. -/
theorem checkAndUpdateEngineActiveState_first_match_witness :
    groupOf
      [(⟨"e1", [], ⟨"v1", "n1", "running", true⟩, ⟨"running", none⟩⟩ : Engine),
       (⟨"e2", [], ⟨"v1", "n2", "running", false⟩, ⟨"running", none⟩⟩ : Engine)] "v1" =
    activateEngine (groupOf
      [(⟨"e1", [], ⟨"v1", "n1", "running", false⟩, ⟨"running", none⟩⟩ : Engine),
       (⟨"e2", [], ⟨"v1", "n2", "running", false⟩, ⟨"running", none⟩⟩ : Engine)] "v1") "e1" :=
  checkAndUpdateEngineActiveState_first_match
    [("v1", (⟨"v1", ⟨""⟩, ⟨"n2", "n1"⟩⟩ : Volume))]
    [(⟨"e1", [], ⟨"v1", "n1", "running", false⟩, ⟨"running", none⟩⟩ : Engine),
     (⟨"e2", [], ⟨"v1", "n2", "running", false⟩, ⟨"running", none⟩⟩ : Engine)]
    [(⟨"e1", [], ⟨"v1", "n1", "running", true⟩, ⟨"running", none⟩⟩ : Engine),
     (⟨"e2", [], ⟨"v1", "n2", "running", false⟩, ⟨"running", none⟩⟩ : Engine)]
    "v1" (⟨"v1", ⟨""⟩, ⟨"n2", "n1"⟩⟩ : Volume)
    (⟨"e1", [], ⟨"v1", "n1", "running", false⟩, ⟨"running", none⟩⟩ : Engine)
    (by decide) (by rfl) (by decide) (by rfl) (by decide) (by rfl) (by rfl)

/-- C2 amended: in `checkAndUpdateEngineActiveState`, a multi-engine group
with no active engine whose owning volume is absent from the cache and the
store makes the whole step abort with the NotFound error (line 172
`return err`); the silent skip on a missing volume belongs to
`upgradeBackups`, not to this step. -/
theorem checkAndUpdateEngineActiveState_missing_volume_error (vm : List (String × Volume))
    (engines : List Engine) (n : String)
    (hnn : (engines.map (fun e => e.name)).Nodup)
    (hmem : n ∈ volumeNames engines)
    (hnoact : (groupOf engines n).any (fun e => e.spec.active) = false)
    (hlen : 2 ≤ (groupOf engines n).length)
    (hv : List.lookup n vm = none) :
    ∃ msg, checkAndUpdateEngineActiveState vm engines = Except.error msg := by
  unfold checkAndUpdateEngineActiveState
  apply goActive_error_of_group vm (volumeNames engines) engines n hnn hmem
  rcases hshape : groupOf engines n with _ | ⟨a, t0⟩
  · rw [hshape] at hlen
    simp at hlen
  · rcases t0 with _ | ⟨b, t⟩
    · rw [hshape] at hlen
      simp at hlen
    · refine ⟨n ++ " not found", ?_⟩
      rw [processGroup_multi vm n a b t (by rw [← hshape]; exact hnoact)]
      simp only [getVolumeFromProvidedCache, hv]

/-- Counterexample to C2 as stated: two inactive engines of volume v1 and an
empty volume cache/store; the step returns an error instead of silently
skipping the group. -/
theorem checkAndUpdateEngineActiveState_missing_volume_counterexample :
    checkAndUpdateEngineActiveState []
      [(⟨"e1", [], ⟨"v1", "n1", "running", false⟩, ⟨"running", none⟩⟩ : Engine),
       (⟨"e2", [], ⟨"v1", "n2", "running", false⟩, ⟨"running", none⟩⟩ : Engine)] =
      Except.error "v1 not found" := by
  rfl

/-- Witness for the amended C2 at the counterexample input. -/
theorem checkAndUpdateEngineActiveState_missing_volume_error_witness :
    ∃ msg, checkAndUpdateEngineActiveState []
      [(⟨"e1", [], ⟨"v1", "n1", "running", false⟩, ⟨"running", none⟩⟩ : Engine),
       (⟨"e2", [], ⟨"v1", "n2", "running", false⟩, ⟨"running", none⟩⟩ : Engine)] =
      Except.error msg :=
  checkAndUpdateEngineActiveState_missing_volume_error []
    [(⟨"e1", [], ⟨"v1", "n1", "running", false⟩, ⟨"running", none⟩⟩ : Engine),
     (⟨"e2", [], ⟨"v1", "n2", "running", false⟩, ⟨"running", none⟩⟩ : Engine)]
    "v1" (by decide) (by decide) (by rfl) (by decide) (by rfl)

/-- C9: a multi-engine group with no active engine, whose volume is present
but none of whose node fields matches any candidate engine, is left entirely
unchanged with no engine activated, and its processing yields no error
(so the only logged, recoverable outcome is a no-op and the other groups of
the same run are unaffected by it). -/
theorem checkAndUpdateEngineActiveState_unresolved_untouched (vm : List (String × Volume))
    (engines final : List Engine) (n : String) (v : Volume)
    (hnn : (engines.map (fun e => e.name)).Nodup)
    (hmem : n ∈ volumeNames engines)
    (hnoact : (groupOf engines n).any (fun e => e.spec.active) = false)
    (hlen : 2 ≤ (groupOf engines n).length)
    (hv : List.lookup n vm = some v)
    (hfind : (groupOf engines n).find? (engineMatchesVolume v) = none) :
    processGroup vm n (groupOf engines n) = Except.ok none ∧
    (checkAndUpdateEngineActiveState vm engines = Except.ok final →
      groupOf final n = groupOf engines n ∧
      (groupOf final n).any (fun e => e.spec.active) = false) := by
  have hpg : processGroup vm n (groupOf engines n) = Except.ok none := by
    rcases hshape : groupOf engines n with _ | ⟨a, t0⟩
    · rw [hshape] at hlen
      simp at hlen
    · rcases t0 with _ | ⟨b, t⟩
      · rw [hshape] at hlen
        simp at hlen
      · rw [processGroup_multi vm n a b t (by rw [← hshape]; exact hnoact)]
        have hfind2 : (a :: b :: t).find? (engineMatchesVolume v) = none := by
          rw [← hshape]
          exact hfind
        simp only [getVolumeFromProvidedCache, hv, hfind2]
  refine ⟨hpg, fun hrun => ?_⟩
  unfold checkAndUpdateEngineActiveState at hrun
  have hout := goActive_group_outcome vm (volumeNames engines) engines final hnn
    (volumeNames_nodup engines) hrun n hmem
  rcases hout with ⟨_, hgrp⟩ | ⟨en, hpg1, _⟩
  · refine ⟨hgrp, ?_⟩
    rw [hgrp]
    exact hnoact
  · rw [hpg] at hpg1
    simp at hpg1

/-- Witness for C9 at a concrete input: volume with empty current and pending
node fields and two inactive engines; both are left inactive and the run
succeeds. -/
theorem checkAndUpdateEngineActiveState_unresolved_untouched_witness :
    processGroup [("v1", (⟨"v1", ⟨""⟩, ⟨"", ""⟩⟩ : Volume))] "v1"
      (groupOf
        [(⟨"e1", [], ⟨"v1", "n1", "running", false⟩, ⟨"running", none⟩⟩ : Engine),
         (⟨"e2", [], ⟨"v1", "n2", "running", false⟩, ⟨"running", none⟩⟩ : Engine)] "v1") =
      Except.ok none ∧
    (checkAndUpdateEngineActiveState [("v1", (⟨"v1", ⟨""⟩, ⟨"", ""⟩⟩ : Volume))]
      [(⟨"e1", [], ⟨"v1", "n1", "running", false⟩, ⟨"running", none⟩⟩ : Engine),
       (⟨"e2", [], ⟨"v1", "n2", "running", false⟩, ⟨"running", none⟩⟩ : Engine)] =
      Except.ok
      [(⟨"e1", [], ⟨"v1", "n1", "running", false⟩, ⟨"running", none⟩⟩ : Engine),
       (⟨"e2", [], ⟨"v1", "n2", "running", false⟩, ⟨"running", none⟩⟩ : Engine)] →
      groupOf
        [(⟨"e1", [], ⟨"v1", "n1", "running", false⟩, ⟨"running", none⟩⟩ : Engine),
         (⟨"e2", [], ⟨"v1", "n2", "running", false⟩, ⟨"running", none⟩⟩ : Engine)] "v1" =
      groupOf
        [(⟨"e1", [], ⟨"v1", "n1", "running", false⟩, ⟨"running", none⟩⟩ : Engine),
         (⟨"e2", [], ⟨"v1", "n2", "running", false⟩, ⟨"running", none⟩⟩ : Engine)] "v1" ∧
      (groupOf
        [(⟨"e1", [], ⟨"v1", "n1", "running", false⟩, ⟨"running", none⟩⟩ : Engine),
         (⟨"e2", [], ⟨"v1", "n2", "running", false⟩, ⟨"running", none⟩⟩ : Engine)] "v1").any
        (fun e => e.spec.active) = false) :=
  checkAndUpdateEngineActiveState_unresolved_untouched
    [("v1", (⟨"v1", ⟨""⟩, ⟨"", ""⟩⟩ : Volume))]
    [(⟨"e1", [], ⟨"v1", "n1", "running", false⟩, ⟨"running", none⟩⟩ : Engine),
     (⟨"e2", [], ⟨"v1", "n2", "running", false⟩, ⟨"running", none⟩⟩ : Engine)]
    [(⟨"e1", [], ⟨"v1", "n1", "running", false⟩, ⟨"running", none⟩⟩ : Engine),
     (⟨"e2", [], ⟨"v1", "n2", "running", false⟩, ⟨"running", none⟩⟩ : Engine)]
    "v1" (⟨"v1", ⟨""⟩, ⟨"", ""⟩⟩ : Volume)
    (by decide) (by decide) (by rfl) (by decide) (by rfl) (by rfl)

end Longhorn

namespace Longhorn

theorem upgradeBackups_cons (engines : List Engine) (volumeMap : List (String × Volume))
    (convert : String → String) (b : Backup) (rest : List Backup) :
    upgradeBackups engines volumeMap convert (b :: rest) =
      match processBackup engines volumeMap convert b with
      | none => none
      | some b2 =>
        match upgradeBackups engines volumeMap convert rest with
        | none => none
        | some rest2 => some (b2 :: rest2) := rfl

/-- C1: the multi-engine no-match path of `upgradeBackups` does NOT leave the
backup untouched: with backup b1 labeled for volume v1, two candidate
engines neither satisfying the (currentNodeID, desired running, current
running) test, and the volume present, the Go code falls through with a nil
`engine` pointer and dereferences it at line 89 — a panic (modelled `none`)
instead of the claimed error-free no-op. -/
theorem upgradeBackups_nil_engine_crash :
    upgradeBackups
      [(⟨"e1", [(longhornLabelVolume, "v1")], ⟨"v1", "a", "running", false⟩,
          ⟨"running", none⟩⟩ : Engine),
       (⟨"e2", [(longhornLabelVolume, "v1")], ⟨"v1", "b", "running", false⟩,
          ⟨"running", none⟩⟩ : Engine)]
      [("v1", (⟨"v1", ⟨""⟩, ⟨"c", ""⟩⟩ : Volume))]
      (fun st => st)
      [(⟨"b1", [(longhornLabelBackupVolume, "v1")], ⟨0, "", "", "", "", ""⟩⟩ : Backup)] =
      none := by
  rfl

/-- C6: a backup carrying no volume-association label is left entirely
unmutated by `upgradeBackups` (lines 58-61 `continue`): its processing
returns it unchanged and the whole loop passes it through untouched. -/
theorem upgradeBackups_no_label_unchanged (engines : List Engine)
    (volumeMap : List (String × Volume)) (convert : String → String) (backup : Backup)
    (h : getLabel backup.labels longhornLabelBackupVolume = none) :
    processBackup engines volumeMap convert backup = some backup ∧
    ∀ rest, upgradeBackups engines volumeMap convert (backup :: rest) =
      (upgradeBackups engines volumeMap convert rest).map (fun l => backup :: l) := by
  have h1 : processBackup engines volumeMap convert backup = some backup := by
    unfold processBackup
    rw [h]
  refine ⟨h1, fun rest => ?_⟩
  rw [upgradeBackups_cons, h1]
  cases hr : upgradeBackups engines volumeMap convert rest with
  | none => rfl
  | some rest2 => rfl

/-- Witness for C6 at a concrete input: a backup with an empty label set. -/
theorem upgradeBackups_no_label_unchanged_witness :
    processBackup [] [] (fun st => st)
      (⟨"b1", [], ⟨0, "", "", "", "", ""⟩⟩ : Backup) =
      some (⟨"b1", [], ⟨0, "", "", "", "", ""⟩⟩ : Backup) ∧
    ∀ rest, upgradeBackups [] [] (fun st => st)
      ((⟨"b1", [], ⟨0, "", "", "", "", ""⟩⟩ : Backup) :: rest) =
      (upgradeBackups [] [] (fun st => st) rest).map
        (fun l => (⟨"b1", [], ⟨0, "", "", "", "", ""⟩⟩ : Backup) :: l) :=
  upgradeBackups_no_label_unchanged [] [] (fun st => st)
    (⟨"b1", [], ⟨0, "", "", "", "", ""⟩⟩ : Backup) (by rfl)

/-- C7: whenever an engine is selected for a backup (whose label resolves to
`volumeName`) and that engine's backupStatus map holds an entry keyed by the
backup's name, exactly the six fields progress, url, error, snapshotName,
state (through the abstract `ConvertEngineBackupState` mapping `convert`)
and replicaAddress are copied onto the backup's status, its name and labels
unchanged; with no such entry the backup is left untouched. -/
theorem upgradeBackups_status_copy (engines : List Engine)
    (volumeMap : List (String × Volume)) (convert : String → String)
    (backup : Backup) (volumeName : String) (e : Engine)
    (hl : getLabel backup.labels longhornLabelBackupVolume = some volumeName)
    (hsel : selectBackupEngine (volumeNameToEngines engines volumeName) volumeMap volumeName =
      EngineSel.selected e) :
    (∀ bs, List.lookup backup.name (e.status.backupStatus.getD []) = some bs →
      processBackup engines volumeMap convert backup = some
        { name := backup.name, labels := backup.labels,
          status := { progress := bs.progress, url := bs.backupURL, error := bs.error,
                      snapshotName := bs.snapshotName, state := convert bs.state,
                      replicaAddress := bs.replicaAddress } }) ∧
    (List.lookup backup.name (e.status.backupStatus.getD []) = none →
      processBackup engines volumeMap convert backup = some backup) := by
  have hp : processBackup engines volumeMap convert backup =
      some (copyBackupStatus convert backup e) := by
    simp only [processBackup, hl, hsel]
  constructor
  · intro bs hbs
    rw [hp]
    unfold copyBackupStatus
    rw [hbs]
  · intro hnone
    rw [hp]
    unfold copyBackupStatus
    rw [hnone]

/-- Witness for C7 at a concrete input: a uniquely selected engine holding a
b1 entry with progress 50; the six fields land on the backup. -/
theorem upgradeBackups_status_copy_witness :
    processBackup
      [(⟨"e1", [(longhornLabelVolume, "v1")], ⟨"v1", "n1", "running", false⟩,
          ⟨"running", some [("b1", ⟨50, "u1", "", "snap1", "InProgress", "addr1"⟩)]⟩⟩ : Engine)]
      [] (fun st => st)
      (⟨"b1", [(longhornLabelBackupVolume, "v1")], ⟨0, "", "", "", "", ""⟩⟩ : Backup) =
      some (⟨"b1", [(longhornLabelBackupVolume, "v1")],
        ⟨50, "u1", "", "snap1", "InProgress", "addr1"⟩⟩ : Backup) :=
  (upgradeBackups_status_copy
    [(⟨"e1", [(longhornLabelVolume, "v1")], ⟨"v1", "n1", "running", false⟩,
        ⟨"running", some [("b1", ⟨50, "u1", "", "snap1", "InProgress", "addr1"⟩)]⟩⟩ : Engine)]
    [] (fun st => st)
    (⟨"b1", [(longhornLabelBackupVolume, "v1")], ⟨0, "", "", "", "", ""⟩⟩ : Backup)
    "v1"
    (⟨"e1", [(longhornLabelVolume, "v1")], ⟨"v1", "n1", "running", false⟩,
        ⟨"running", some [("b1", ⟨50, "u1", "", "snap1", "InProgress", "addr1"⟩)]⟩⟩ : Engine)
    (by rfl) (by rfl)).1
    (⟨50, "u1", "", "snap1", "InProgress", "addr1"⟩ : BackupStatusEntry) (by rfl)

/-- C8: after `checkAndRemoveEngineBackupStatus` succeeds, every cached
engine has its deprecated backupStatus field cleared to nil and no other
field (name, labels, spec, currentState) modified; the operation fails
exactly when the engine listing fails, passing that error through. -/
theorem checkAndRemoveEngineBackupStatus_spec (lr : Except String (List Engine)) :
    (∀ engines, lr = Except.ok engines →
      checkAndRemoveEngineBackupStatus lr = Except.ok (engines.map clearBackupStatus) ∧
      List.Forall₂ (fun a b => b.name = a.name ∧ b.labels = a.labels ∧ b.spec = a.spec ∧
        b.status.currentState = a.status.currentState ∧ b.status.backupStatus = none)
        engines (engines.map clearBackupStatus)) ∧
    (∀ err, lr = Except.error err → checkAndRemoveEngineBackupStatus lr = Except.error err) := by
  constructor
  · intro engines hok
    subst hok
    refine ⟨rfl, ?_⟩
    induction engines with
    | nil => exact List.Forall₂.nil
    | cons a t ih => exact List.Forall₂.cons ⟨rfl, rfl, rfl, rfl, rfl⟩ ih
  · intro err herr
    subst herr
    rfl

/-- Witness for C8 at a concrete input: one engine carrying a backupStatus
entry, cleared by the pass. -/
theorem checkAndRemoveEngineBackupStatus_spec_witness :
    checkAndRemoveEngineBackupStatus (Except.ok
      [(⟨"e1", [], ⟨"v1", "n1", "running", true⟩,
          ⟨"running", some [("b1", ⟨50, "u1", "", "snap1", "InProgress", "addr1"⟩)]⟩⟩ : Engine)]) =
      Except.ok
      ([(⟨"e1", [], ⟨"v1", "n1", "running", true⟩,
          ⟨"running", some [("b1", ⟨50, "u1", "", "snap1", "InProgress", "addr1"⟩)]⟩⟩ : Engine)].map
        clearBackupStatus) ∧
    List.Forall₂ (fun a b => b.name = a.name ∧ b.labels = a.labels ∧ b.spec = a.spec ∧
        b.status.currentState = a.status.currentState ∧ b.status.backupStatus = none)
      [(⟨"e1", [], ⟨"v1", "n1", "running", true⟩,
          ⟨"running", some [("b1", ⟨50, "u1", "", "snap1", "InProgress", "addr1"⟩)]⟩⟩ : Engine)]
      ([(⟨"e1", [], ⟨"v1", "n1", "running", true⟩,
          ⟨"running", some [("b1", ⟨50, "u1", "", "snap1", "InProgress", "addr1"⟩)]⟩⟩ : Engine)].map
        clearBackupStatus) :=
  (checkAndRemoveEngineBackupStatus_spec (Except.ok
      [(⟨"e1", [], ⟨"v1", "n1", "running", true⟩,
          ⟨"running", some [("b1", ⟨50, "u1", "", "snap1", "InProgress", "addr1"⟩)]⟩⟩ : Engine)])).1
    [(⟨"e1", [], ⟨"v1", "n1", "running", true⟩,
        ⟨"running", some [("b1", ⟨50, "u1", "", "snap1", "InProgress", "addr1"⟩)]⟩⟩ : Engine)] rfl

end Longhorn

namespace Crypto

/-- C10: for every device path that does not begin with "/dev/mapper",
`DeviceEncryptionStatus` returns the original path, an empty mapper name and
no error — for EVERY behaviour of the external luksStatus command, i.e.
without consulting it — and consequently `IsDeviceOpen` returns
(false, nil). -/
theorem deviceEncryptionStatus_non_mapper (luksStatus : String → Except String String)
    (devicePath : String)
    (h : hasPfx mapperFilePathPfx devicePath = false) :
    deviceEncryptionStatus luksStatus devicePath = some (devicePath, "", none) ∧
    isDeviceOpen luksStatus devicePath = some (false, none) := by
  have h1 : deviceEncryptionStatus luksStatus devicePath = some (devicePath, "", none) := by
    unfold deviceEncryptionStatus
    rw [h]
    rfl
  refine ⟨h1, ?_⟩
  unfold isDeviceOpen
  rw [h1]
  simp

/-- Witness for C10 at a concrete input: a longhorn block-device path, with
a luksStatus stub that would report an active device if it were consulted. -/
theorem deviceEncryptionStatus_non_mapper_witness :
    deviceEncryptionStatus
      (fun _ => Except.ok "vol is active\n  device: /dev/sda\n") "/dev/longhorn/pvc-1" =
      some ("/dev/longhorn/pvc-1", "", none) ∧
    isDeviceOpen
      (fun _ => Except.ok "vol is active\n  device: /dev/sda\n") "/dev/longhorn/pvc-1" =
      some (false, none) :=
  deviceEncryptionStatus_non_mapper
    (fun _ => Except.ok "vol is active\n  device: /dev/sda\n") "/dev/longhorn/pvc-1"
    (by decide)

end Crypto
